import Mathlib

/-!
Shallow embedding of the AlfiePolicyAI core
(`attached_assets/schedule_run_1764025849696.py` and
`attached_assets/top_3_quotes_1764752188280.py`) and proofs about it.

Text is modelled as `List Char`; Python `float` values that the program
computes are modelled as `ℚ`; fallible operations return `Option`/`Except`.
-/

set_option maxRecDepth 4000

/-- Model of Python `str.isspace` membership for the ASCII whitespace
characters stripped by `str.strip()`. -/
def pyIsSpace (c : Char) : Bool :=
  c = ' ' || c = '\t' || c = '\n' || c = '\r' || c = '\x0b' || c = '\x0c'

/-- The ASCII uppercase/lowercase pairs used by `str.lower()` on the
ASCII inputs this program works with. -/
def lowerMap : List (Char × Char) :=
  [('A','a'), ('B','b'), ('C','c'), ('D','d'), ('E','e'), ('F','f'),
   ('G','g'), ('H','h'), ('I','i'), ('J','j'), ('K','k'), ('L','l'),
   ('M','m'), ('N','n'), ('O','o'), ('P','p'), ('Q','q'), ('R','r'),
   ('S','s'), ('T','t'), ('U','u'), ('V','v'), ('W','w'), ('X','x'),
   ('Y','y'), ('Z','z')]

/-- Model of Python `str.lower()` on one character (ASCII range; other
characters are left unchanged). -/
def pyToLower (c : Char) : Char :=
  match lowerMap.find? (fun p => p.1 == c) with
  | some p => p.2
  | none => c

/-- Model of Python `str.lower()`. -/
def pyLower (s : List Char) : List Char := s.map pyToLower

/-- Model of Python `str.strip()`: drop whitespace from both ends. -/
def pyStrip (s : List Char) : List Char :=
  ((s.dropWhile pyIsSpace).reverse.dropWhile pyIsSpace).reverse

/-- `normalize_feature_name` from `schedule_run_1764025849696.py`:
lowercase, strip, and drop one trailing `_included` suffix
(`f = f[:-len("_included")]`). -/
def normalize_feature_name (feature : List Char) : List Char :=
  let f := pyStrip (pyLower feature)
  if ("_included".data).isSuffixOf f then f.take (f.length - 9) else f

/-- `ALIAS_MAP` from `schedule_run_1764025849696.py`, in source (insertion)
order: raw alias phrase paired with its canonical feature identifier. -/
def ALIAS_MAP : List (List Char × String) :=
  [("windshield".data, "windshield_cover"),
   ("windscreen".data, "windshield_cover"),
   ("windshield cover".data, "windshield_cover"),
   ("windscreen cover".data, "windshield_cover"),
   ("windshield_cover".data, "windshield_cover"),
   ("windscreen_cover".data, "windshield_cover"),
   ("legal".data, "legal_cover"),
   ("legal cover".data, "legal_cover"),
   ("legul cover".data, "legal_cover"),
   ("courtesy car".data, "courtesy_car"),
   ("courtesy_car".data, "courtesy_car"),
   ("breakdown".data, "breakdown_cover"),
   ("breakdown cover".data, "breakdown_cover"),
   ("breakdown_cover".data, "breakdown_cover"),
   ("european".data, "european_cover"),
   ("european cover".data, "european_cover"),
   ("european_cover".data, "european_cover"),
   ("europe".data, "european_cover")]

/-- Whether `pat` occurs as a contiguous substring of `text`
(the semantics of `re.search` on a pattern that only matches one
literal string). -/
def containsSub (pat : List Char) : List Char → Bool
  | [] => pat.isEmpty
  | c :: rest => pat.isPrefixOf (c :: rest) || containsSub pat rest

/-- The literal string matched by the compiled pattern
`r"\\b" + re.escape(alias) + r"\\b"`.  In a raw string `r"\\b"` denotes
the two characters backslash, backslash followed by `b`; as a regex,
`\\` matches one literal backslash and `b` the letter `b`.  So the
compiled pattern matches exactly: backslash, `b`, the alias text,
backslash, `b`. -/
def aliasPattern (a : List Char) : List Char :=
  '\\' :: 'b' :: (a ++ ['\\', 'b'])

/-- The feature-scanning loop of `call_llm_to_extract_preferences`:
for each `ALIAS_MAP` entry in order, search `lower_text` for the compiled
pattern and append the canonical id if not already collected. -/
def extractFeatures (user_preferences : List Char) : List String :=
  let lower_text := pyLower user_preferences
  ALIAS_MAP.foldl
    (fun acc p =>
      if containsSub (aliasPattern p.1) lower_text && !(acc.contains p.2) then
        acc ++ [p.2]
      else acc)
    []

/-- Digit-run to number (the value `float` gives an all-digit string). -/
def digitsVal (l : List Char) : Nat :=
  l.foldl (fun a c => 10 * a + (c.toNat - 48)) 0

/-- Python exceptions that can reach the extractor's `try`/`except`. -/
inductive PyErr where
  | valueError
deriving DecidableEq, Repr

/-- Model of Python `float(s)` restricted to the token shapes
`number_match.group(1)` can produce: a nonempty all-digit string parses
to its value; any other shape (the tokens containing a literal
backslash) raises `ValueError`. -/
def pyFloat (l : List Char) : Except PyErr ℚ :=
  if !l.isEmpty && l.all Char.isDigit then Except.ok (digitsVal l : ℚ)
  else Except.error PyErr.valueError

/-- Model of `user_preferences.replace(",", "")`. -/
def stripCommas (l : List Char) : List Char := l.filter (fun c => c ≠ ',')

/-- The leftmost match of `re.search(r"([0-9]+(?:\\.[0-9]+)?)", t)`.
In the raw string, `\\.` denotes backslash, backslash, dot; as a regex
`\\` matches one literal backslash and `.` any character except a
newline.  So the match is: the first maximal digit run, extended — only
when it is immediately followed by a literal backslash, one non-newline
character and at least one digit — by that backslash, that character and
the following maximal digit run. -/
def findNumberToken : List Char → Option (List Char)
  | [] => none
  | c :: rest =>
    if c.isDigit then
      let ds := (c :: rest).takeWhile Char.isDigit
      let tail := (c :: rest).dropWhile Char.isDigit
      match tail with
      | '\\' :: d :: r2 =>
        if d ≠ '\n' && !(r2.takeWhile Char.isDigit).isEmpty then
          some (ds ++ '\\' :: d :: r2.takeWhile Char.isDigit)
        else some ds
      | _ => some ds
    else findNumberToken rest

instance exceptDecEq {ε α : Type} [DecidableEq ε] [DecidableEq α] :
    DecidableEq (Except ε α)
  | Except.ok a, Except.ok b =>
    decidable_of_iff (a = b) ⟨fun h => h ▸ rfl, fun h => by cases h; rfl⟩
  | Except.ok _, Except.error _ => isFalse (fun h => Except.noConfusion h)
  | Except.error _, Except.ok _ => isFalse (fun h => Except.noConfusion h)
  | Except.error e, Except.error f =>
    decidable_of_iff (e = f) ⟨fun h => h ▸ rfl, fun h => by cases h; rfl⟩

/-- `ExtractedPreferences` dataclass from `schedule_run_1764025849696.py`. -/
structure ExtractedPreferences where
  budget : Option ℚ
  features : List String
  raw_text : List Char
deriving DecidableEq, Repr

/-- The budget block of `call_llm_to_extract_preferences`: search for the
first numeric token, `try: budget = float(...) except ValueError: budget =
None`.  The `except` clause catches exactly `ValueError`; an exception of
any other kind would propagate as `Except.error`. -/
def extractBudget (user_preferences : List Char) : Except PyErr (Option ℚ) :=
  match findNumberToken (stripCommas user_preferences) with
  | none => Except.ok none
  | some g =>
    match pyFloat g with
    | Except.ok v => Except.ok (some v)
    | Except.error PyErr.valueError => Except.ok none

/-- `call_llm_to_extract_preferences` from `schedule_run_1764025849696.py`,
with Python exception flow made explicit: an uncaught exception in the
budget block would surface as `Except.error`. -/
def call_llm_to_extract_preferences (user_preferences : List Char) :
    Except PyErr ExtractedPreferences :=
  match extractBudget user_preferences with
  | Except.ok budget =>
    Except.ok ⟨budget, extractFeatures user_preferences, user_preferences⟩
  | Except.error e => Except.error e

/-- `Quote` dataclass from `schedule_run_1764025849696.py`. -/
structure Quote where
  insurer : String
  price : ℚ
  features : List String
deriving DecidableEq, Repr

/-- `matches_requirements` from `schedule_run_1764025849696.py`. -/
def matches_requirements (quote : Quote) (budget : Option ℚ)
    (required_features : List String) : Bool :=
  if budget.any (fun b => decide (b < quote.price)) then false
  else
    let missing := required_features.filter (fun f => !(quote.features.contains f))
    if !required_features.isEmpty && !missing.isEmpty then false
    else true

/-- `find_best_match` from `schedule_run_1764025849696.py`: filter by
`matches_requirements`, then `min(candidates, key=lambda q: q.price)`,
which keeps the first element on ties (it replaces the running minimum
only on a strictly smaller key). -/
def find_best_match (quotes : List Quote) (budget : Option ℚ)
    (required_features : List String) : Option Quote :=
  match quotes.filter (fun q => matches_requirements q budget required_features) with
  | [] => none
  | q :: qs => some (qs.foldl (fun best x => if x.price < best.price then x else best) q)

/-- Proleptic-Gregorian leap-year test. -/
def isLeap (y : Nat) : Bool := (y % 4 = 0 && y % 100 ≠ 0) || y % 400 = 0

/-- Days in a month of the proleptic Gregorian calendar. -/
def daysInMonth (y m : Nat) : Nat :=
  if m = 2 then (if isLeap y then 29 else 28)
  else if m = 4 || m = 6 || m = 9 || m = 11 then 30
  else 31

/-- Model of `datetime.date(y, m, d).toordinal()`: the proleptic
Gregorian day number with day 1 = 0001-01-01 (standard era/day-of-year
arithmetic).  `datetime.timedelta(days = n)` addition is addition on
this ordinal. -/
def pyOrd (y m d : Nat) : Nat :=
  let yAdj := if m ≤ 2 then y - 1 else y
  let era := yAdj / 400
  let yoe := yAdj % 400
  let mp := if 2 < m then m - 3 else m + 9
  let doy := (153 * mp + 2) / 5 + (d - 1)
  let doe := yoe * 365 + yoe / 4 - yoe / 100 + doy
  era * 146097 + doe - 305

/-- The `%Y` field of CPython `_strptime`: exactly four digits
(`r"\d\d\d\d"`). -/
def parseYear (ys : List Char) : Option Nat :=
  if ys.length = 4 ∧ ys.all Char.isDigit then some (digitsVal ys) else none

/-- The `%m` field of CPython `_strptime`: `1[0-2]|0[1-9]|[1-9]`.  A
field pre-split at the dashes is fully consumed or the match fails, so
this is exactly: one or two digits with value 1..12 (a two-digit field
with value over 12 backtracks to a one-digit match and leaves
unconverted data, also a `ValueError`). -/
def parseMonth (ms : List Char) : Option Nat :=
  if (ms.length = 1 ∨ ms.length = 2) ∧ ms.all Char.isDigit ∧
      1 ≤ digitsVal ms ∧ digitsVal ms ≤ 12 then some (digitsVal ms)
  else none

/-- The `%d` field of CPython `_strptime`:
`3[01]|[12]\d|0[1-9]|[1-9]| [1-9]` — one or two digits with value 1..31,
or a space-padded single digit 1..9. -/
def parseDay (ds : List Char) : Option Nat :=
  match ds with
  | [' ', c] => if c.isDigit ∧ 1 ≤ digitsVal [c] then some (digitsVal [c]) else none
  | _ =>
    if (ds.length = 1 ∨ ds.length = 2) ∧ ds.all Char.isDigit ∧
        1 ≤ digitsVal ds ∧ digitsVal ds ≤ 31 then some (digitsVal ds)
    else none

/-- `parse_date` from `schedule_run_1764025849696.py`, i.e.
`datetime.strptime(date_str, "%Y-%m-%d").date()` with the raised
`ValueError` modelled as `none`, on ASCII input: three dash-separated
fields matching `_strptime`'s `%Y` (exactly four digits), `%m` and `%d`
patterns, with no unconverted data, followed by `datetime`'s own
construction check (year at least `MINYEAR` = 1, day within the month);
the result is the date's proleptic-Gregorian ordinal. -/
def parse_date (s : List Char) : Option Nat :=
  match s.splitOn '-' with
  | [ys, ms, ds] =>
    match parseYear ys, parseMonth ms, parseDay ds with
    | some y, some m, some d =>
      if 1 ≤ y ∧ d ≤ daysInMonth y m then some (pyOrd y m d) else none
    | _, _, _ => none
  | _ => none

/-- `datetime.date.max.toordinal()`: adding a `timedelta` to a date
raises `OverflowError` when the result would pass 9999-12-31. -/
def maxOrdinal : Nat := pyOrd 9999 12 31

/-- The JSON request consumed by `run_schedule` (only the fields the
core reads).  `iterations` models `int(data.get("iterations", 10))`
already converted; absent fields take the source's defaults. -/
structure Request where
  user_preferences : Option (List Char)
  iterations : Option Int
  start_date : Option (List Char)

/-- Exceptions `run_schedule` can raise. -/
inductive ScheduleError where
  | invalidDate
  | overflow
  | extractionError (e : PyErr)
deriving DecidableEq, Repr

/-- The `for i in range(iterations)` loop of `run_schedule`, iterating
`i` upward with `k` iterations left.  Computing
`run_date = start_date + timedelta(days=i * 7)` raises `OverflowError`
when the result would pass `datetime.date.max`, aborting the loop and
keeping only the outcomes already emitted. -/
def runIters (start : Nat) (fetch : Nat → List Quote) (budget : Option ℚ)
    (features : List String) : Nat → Nat → List (Nat × Bool) × Option ScheduleError
  | _, 0 => ([], none)
  | i, k + 1 =>
    if start + i * 7 ≤ maxOrdinal then
      let m := find_best_match (fetch i) budget features
      let rest := runIters start fetch budget features (i + 1) k
      ((start + i * 7, m.isSome) :: rest.1, rest.2)
    else ([], some ScheduleError.overflow)

/-- `run_schedule` from `schedule_run_1764025849696.py`, with the
external `fetch_quotes` call abstracted as an oracle giving the quote
batch returned on iteration `i`, and each printed line abstracted to
its `(run_date, match_found)` pair.  The result is the emitted lines
paired with the exception, if any, that ended the run.  Mirrors the
source order: extract preferences, parse the start date (a `ValueError`
there aborts the run before any iteration), then loop
`for i in range(iterations)` with
`run_date = start_date + timedelta(days = i * 7)`, which can raise
`OverflowError` mid-loop. -/
def run_schedule (r : Request) (fetch : Nat → List Quote) :
    List (Nat × Bool) × Option ScheduleError :=
  let user_pref_text := r.user_preferences.getD []
  let iterations := r.iterations.getD 10
  let start_date_str := r.start_date.getD ("2025-11-23".data)
  match call_llm_to_extract_preferences user_pref_text with
  | Except.error e => ([], some (ScheduleError.extractionError e))
  | Except.ok prefs =>
    match parse_date start_date_str with
    | none => ([], some ScheduleError.invalidDate)
    | some start_date =>
      runIters start_date fetch prefs.budget prefs.features 0 iterations.toNat

/-- The `trust_pilot_context` sub-object read by `get_top_3_quotes`. -/
structure TrustPilotContext where
  rating : Option ℚ
deriving DecidableEq, Repr

/-- The `features_matching_requirements` sub-object read by
`get_top_3_quotes`. -/
structure FeaturesMatching where
  matched_required : Option (List String)
  missing_required : Option (List String)
deriving DecidableEq, Repr

/-- One element of `quotes_with_insights` (only the keys
`get_top_3_quotes` reads); every key may be absent. -/
structure QuoteRecord where
  insurer_name : Option String
  alfie_touch_score : Option ℚ
  trust_pilot_context : Option TrustPilotContext
  alfie_message : Option String
  features_matching_requirements : Option FeaturesMatching
  available_features : Option (List String)
deriving DecidableEq, Repr

/-- The input object of `get_top_3_quotes`. -/
structure TopData where
  quotes_with_insights : Option (List QuoteRecord)
deriving DecidableEq, Repr

/-- One entry of the output `top_3_quotes` list. -/
structure RankedEntry where
  insurer_name : Option String
  alfie_touch_score : Option ℚ
  trustpilot_rating : Option ℚ
  alfie_message : Option String
  features_matched : List String
  features_missing : List String
  available_features : List String
deriving DecidableEq, Repr

/-- The sort key `lambda q: q.get("alfie_touch_score", 0)`. -/
def scoreKey (q : QuoteRecord) : ℚ := q.alfie_touch_score.getD 0

/-- One step of a stable descending insertion sort: place `x` before the
first element whose key is `≤ key x`.  In `pySortedDesc` the list is
folded from the right, so when `x` is inserted the list holds exactly
the elements that came after `x` in the input; `x` lands before every
one of them that has an equal key, which is stability. -/
def insertDescBy {α : Type} (key : α → ℚ) (x : α) : List α → List α
  | [] => [x]
  | y :: ys => if key y ≤ key x then x :: y :: ys else y :: insertDescBy key x ys

/-- Model of Python `sorted(l, key=key, reverse=True)`: the stable
descending sort (equal keys keep input order). -/
def pySortedDesc {α : Type} (key : α → ℚ) (l : List α) : List α :=
  l.foldr (insertDescBy key) []

/-- The per-record projection in the loop of `get_top_3_quotes`,
with each `dict.get` default made explicit. -/
def projEntry (q : QuoteRecord) : RankedEntry :=
  { insurer_name := q.insurer_name
    alfie_touch_score := q.alfie_touch_score
    trustpilot_rating := (q.trust_pilot_context.getD ⟨none⟩).rating
    alfie_message := q.alfie_message
    features_matched :=
      ((q.features_matching_requirements.getD ⟨none, none⟩).matched_required).getD []
    features_missing :=
      ((q.features_matching_requirements.getD ⟨none, none⟩).missing_required).getD []
    available_features := q.available_features.getD [] }

/-- The general sort-take-project operation of which the source fixes
`n = 3`: sort `quotes_with_insights` by score descending (stable), take
the first `n`, project each entry. -/
def topNQuotes (n : Nat) (data : TopData) : List RankedEntry :=
  (((pySortedDesc scoreKey (data.quotes_with_insights.getD [])).take n).map projEntry)

/-- The output object of `get_top_3_quotes`. -/
structure TopOutput where
  top_3_quotes : List RankedEntry
deriving DecidableEq, Repr

/-- `get_top_3_quotes` from `top_3_quotes_1764752188280.py`. -/
def get_top_3_quotes (data : TopData) : TopOutput :=
  let quotes := data.quotes_with_insights.getD []
  let quotes_sorted := pySortedDesc scoreKey quotes
  let top_3 := quotes_sorted.take 3
  ⟨top_3.map projEntry⟩

/-! Sanity checks of the embedding on concrete inputs. -/

example : normalize_feature_name " Legal_Cover_Included ".data = "legal_cover".data := by decide

example : normalize_feature_name "a_included_included".data = "a_included".data := by decide

example : extractFeatures "\\bwindscreen cover\\b".data = ["windshield_cover"] := by decide

example : parse_date "2025-11-23".data = some (pyOrd 2025 11 23) := by decide

example : parse_date "2025-13-99".data = none := by decide

example : parse_date "999-11-23".data = none := by decide

example : parse_date "02025-11-23".data = none := by decide

example : parse_date "2025-11- 3".data = some (pyOrd 2025 11 3) := by decide

example : parse_date "2025-2-30".data = none := by decide

example : parse_date "0000-01-01".data = none := by decide

example : parse_date "0001-1-1".data = some 1 := by decide

example :
    run_schedule ⟨some "legal cover under 300".data, some 2, some "2025-11-23".data⟩
      (fun _ => [⟨"A", 250, ["legal_cover"]⟩]) =
      ([(pyOrd 2025 11 23, true), (pyOrd 2025 11 23 + 7, true)], none) := by
  decide

example :
    (get_top_3_quotes ⟨some
        [⟨some "a", some 5, none, none, none, none⟩,
         ⟨some "b", some 9, none, none, none, none⟩,
         ⟨some "c", some 9, none, none, none, none⟩,
         ⟨some "d", some 3, none, none, none, none⟩]⟩).top_3_quotes.map
      (fun e => e.insurer_name) = [some "b", some "c", some "a"] := by decide

/-- Anchor checks for the ordinal model: epoch day 1, and month/leap
boundaries. -/
theorem pyOrd_anchor :
    pyOrd 1 1 1 = 1 ∧ pyOrd 2024 3 1 = pyOrd 2024 2 29 + 1 ∧
      pyOrd 2025 3 1 = pyOrd 2025 2 28 + 1 ∧ pyOrd 2026 1 1 = pyOrd 2025 12 31 + 1 := by
  decide

/-- The budget block never raises: the only exception `float` can throw
on these tokens is `ValueError` and the source catches exactly it. -/
theorem extractBudget_ok (s : List Char) : ∃ b, extractBudget s = Except.ok b := by
  unfold extractBudget
  cases findNumberToken (stripCommas s) with
  | none => exact ⟨none, rfl⟩
  | some g =>
    cases h : pyFloat g with
    | ok v => exact ⟨some v, by simp [h]⟩
    | error e => cases e; exact ⟨none, by simp [h]⟩

/-- Claim C9: for every input string the preference extractor returns an
`ExtractedPreferences` value without raising; parse failures degrade to an
absent budget and unknown aliases to an empty feature list. -/
theorem call_llm_to_extract_preferences_total (s : List Char) :
    ∃ budget features,
      call_llm_to_extract_preferences s = Except.ok ⟨budget, features, s⟩ := by
  obtain ⟨b, hb⟩ := extractBudget_ok s
  exact ⟨b, extractFeatures s, by unfold call_llm_to_extract_preferences; rw [hb]⟩

/-- Claim C3 (code evaluation): on `"budget 499.99"` the code extracts
`499`, not `499.99` — the raw string `r"(?:\\.[0-9]+)?"` makes the
fractional part of the pattern require a literal backslash, so it never
matches a decimal point. -/
theorem budget_decimal_truncated :
    call_llm_to_extract_preferences "budget 499.99".data =
        Except.ok ⟨some 499, [], "budget 499.99".data⟩ ∧
      (499 : ℚ) ≠ 49999 / 100 := by
  constructor
  · decide
  · norm_num

/-- Claim C2 (code evaluation): the alias scan finds nothing in
`"I want windscreen cover"` — the raw string `r"\\b"` compiles to a
pattern matching a literal backslash followed by `b`, not a word
boundary — while a text that does contain those literal markers
matches. -/
theorem alias_scan_requires_literal_backslashes :
    extractFeatures "I want windscreen cover".data = [] ∧
      extractFeatures "\\bwindscreen cover\\b".data = ["windshield_cover"] := by
  constructor
  · decide
  · decide

/-- Reduction of `run_schedule` once the extraction result is known. -/
theorem run_schedule_eq (r : Request) (fetch : Nat → List Quote) (bv : Option ℚ)
    (hb : extractBudget (r.user_preferences.getD []) = Except.ok bv) :
    run_schedule r fetch =
      match parse_date (r.start_date.getD ("2025-11-23".data)) with
      | none => ([], some ScheduleError.invalidDate)
      | some start_date =>
        runIters start_date fetch bv (extractFeatures (r.user_preferences.getD [])) 0
          (r.iterations.getD 10).toNat := by
  have hcall : call_llm_to_extract_preferences (r.user_preferences.getD []) =
      Except.ok ⟨bv, extractFeatures (r.user_preferences.getD []),
        r.user_preferences.getD []⟩ := by
    unfold call_llm_to_extract_preferences
    rw [hb]
  simp only [run_schedule]
  rw [hcall]

/-- While every scheduled date stays on or before `datetime.date.max`,
the loop raises nothing and emits one dated outcome per iteration,
dates `start + (i + j) * 7`. -/
theorem runIters_ok (start : Nat) (fetch : Nat → List Quote) (budget : Option ℚ)
    (features : List String) :
    ∀ k i : Nat, start + (i + k - 1) * 7 ≤ maxOrdinal →
      (runIters start fetch budget features i k).2 = none ∧
        (runIters start fetch budget features i k).1.length = k ∧
        ∀ j, j < k →
          ((runIters start fetch budget features i k).1.map Prod.fst)[j]? =
            some (start + (i + j) * 7) := by
  intro k
  induction k with
  | zero =>
    intro i _
    exact ⟨rfl, rfl, fun j hj => absurd hj (Nat.not_lt_zero j)⟩
  | succ k ih =>
    intro i hbound
    have hi : start + i * 7 ≤ maxOrdinal := by omega
    have hbound' : start + ((i + 1) + k - 1) * 7 ≤ maxOrdinal := by omega
    obtain ⟨h2, hlen, hidx⟩ := ih (i + 1) hbound'
    simp only [runIters, if_pos hi]
    refine ⟨h2, by simp [hlen], ?_⟩
    intro j hj
    cases j with
    | zero => simp
    | succ j' =>
      have hj' : j' < k := Nat.lt_of_succ_lt_succ hj
      simp only [List.map_cons, List.getElem?_cons_succ]
      rw [hidx j' hj']
      congr 2
      omega

/-- Claim C6 (amended): a malformed start date aborts `run_schedule`
with an error before any evaluation, but a non-positive iteration count
is not an error: the runner finishes with no outcomes and no
exception. -/
theorem run_schedule_config (r : Request) (fetch : Nat → List Quote) (s : List Char)
    (hs : r.start_date = some s) :
    (parse_date s = none → run_schedule r fetch = ([], some ScheduleError.invalidDate)) ∧
      (∀ d, parse_date s = some d → r.iterations.getD 10 ≤ 0 →
        run_schedule r fetch = ([], none)) := by
  obtain ⟨bv, hb⟩ := extractBudget_ok (r.user_preferences.getD [])
  rw [run_schedule_eq r fetch bv hb, hs]
  constructor
  · intro hd
    simp [hd]
  · intro d hd hn
    simp [hd, Int.toNat_of_nonpos hn, runIters]

/-- Witness for C6 (amended), applying `run_schedule_config` to one
request with a malformed date and one with a negative iteration count. -/
theorem run_schedule_config_witness :
    run_schedule ⟨none, none, some ("2025-13-99".data)⟩ (fun _ => []) =
        ([], some ScheduleError.invalidDate) ∧
      run_schedule ⟨none, some (-5), some ("2025-11-23".data)⟩ (fun _ => []) =
        ([], none) :=
  ⟨(run_schedule_config ⟨none, none, some ("2025-13-99".data)⟩ (fun _ => [])
      ("2025-13-99".data) rfl).1 (by decide),
    (run_schedule_config ⟨none, some (-5), some ("2025-11-23".data)⟩ (fun _ => [])
      ("2025-11-23".data) rfl).2 (pyOrd 2025 11 23) (by decide) (by decide)⟩

/-- Claim C6 (counterexample): with a valid start date and iteration
count `0` the runner reports no configuration error at all — it returns
an empty run, contradicting the claim that a non-positive iteration
count is an error reported to the caller. -/
theorem run_schedule_zero_iterations_no_error :
    run_schedule ⟨none, some 0, some ("2025-11-23".data)⟩ (fun _ => []) =
      ([], none) := by
  decide

/-- Claim C7 (amended): for a valid start date and positive iteration
count `N` whose last scheduled date `start + (N-1) * 7` does not pass
`datetime.date.max` (9999-12-31), the runner raises nothing and
evaluates exactly `N` dates: the start date itself and then steps of
exactly 7 days, in strictly ascending order.  (Past `date.max` the date
arithmetic raises `OverflowError` mid-loop, as the counterexample
shows.) -/
theorem run_schedule_dates (r : Request) (fetch : Nat → List Quote) (s : List Char)
    (d : Nat) (N : Int) (hs : r.start_date = some s) (hd : parse_date s = some d)
    (hN : r.iterations = some N) (hpos : 0 < N)
    (hfit : d + (N.toNat - 1) * 7 ≤ maxOrdinal) :
    ∃ outs, run_schedule r fetch = (outs, none) ∧
      outs.length = N.toNat ∧ 0 < N.toNat ∧
      (∀ i, i < N.toNat → (outs.map Prod.fst)[i]? = some (d + i * 7)) ∧
      (∀ i j a b, i < j → j < N.toNat → (outs.map Prod.fst)[i]? = some a →
        (outs.map Prod.fst)[j]? = some b → a < b) := by
  obtain ⟨bv, hb⟩ := extractBudget_ok (r.user_preferences.getD [])
  rw [run_schedule_eq r fetch bv hb, hs]
  simp only [Option.getD_some, hd, hN]
  have hfit' : d + (0 + N.toNat - 1) * 7 ≤ maxOrdinal := by omega
  obtain ⟨h2, hlen, hidx⟩ :=
    runIters_ok d fetch bv (extractFeatures (r.user_preferences.getD [])) N.toNat 0 hfit'
  refine ⟨(runIters d fetch bv (extractFeatures (r.user_preferences.getD [])) 0
      N.toNat).1, ?_, hlen, by omega, ?_, ?_⟩
  · rw [← h2]
  · intro i hi
    rw [hidx i hi]
    simp
  · intro i j a b hij hj ha hb2
    have hi : i < N.toNat := lt_trans hij hj
    rw [hidx i hi] at ha
    rw [hidx j hj] at hb2
    simp only [Option.some.injEq] at ha hb2
    omega

/-- Witness for C7 (amended) at the spec's scenario: start `2025-11-23`,
three iterations, dates `2025-11-23`, `2025-11-30`, `2025-12-07`. -/
theorem run_schedule_dates_witness :
    (∃ outs,
      run_schedule ⟨none, some 3, some ("2025-11-23".data)⟩ (fun _ => []) =
          (outs, none) ∧
        outs.length = (3 : Int).toNat ∧ 0 < (3 : Int).toNat ∧
        (∀ i, i < (3 : Int).toNat →
          (outs.map Prod.fst)[i]? = some (pyOrd 2025 11 23 + i * 7)) ∧
        (∀ i j a b, i < j → j < (3 : Int).toNat →
          (outs.map Prod.fst)[i]? = some a → (outs.map Prod.fst)[j]? = some b → a < b)) ∧
      pyOrd 2025 11 23 + 1 * 7 = pyOrd 2025 11 30 ∧
      pyOrd 2025 11 23 + 2 * 7 = pyOrd 2025 12 7 :=
  ⟨run_schedule_dates ⟨none, some 3, some ("2025-11-23".data)⟩ (fun _ => [])
      ("2025-11-23".data) (pyOrd 2025 11 23) 3 rfl (by decide) rfl (by decide) (by decide),
    by decide, by decide⟩

/-- Claim C7 (counterexample): at start date `9999-12-31` with iteration
count 2 the program does not evaluate 2 dates — the first iteration
runs, then `start_date + timedelta(days=7)` passes `datetime.date.max`
and raises `OverflowError`, aborting the schedule after one outcome. -/
theorem run_schedule_dates_counterexample :
    run_schedule ⟨none, some 2, some ("9999-12-31".data)⟩ (fun _ => []) =
      ([(pyOrd 9999 12 31, false)], some ScheduleError.overflow) := by
  decide

/-- `pyToLower` is idempotent. -/
theorem pyToLower_fix (c : Char) : pyToLower (pyToLower c) = pyToLower c := by
  cases h : lowerMap.find? (fun p => p.1 == c) with
  | none =>
    have e : pyToLower c = c := by simp [pyToLower, h]
    simp only [e]
  | some p =>
    have hmem : p ∈ lowerMap := List.mem_of_find?_eq_some h
    have e : pyToLower c = p.2 := by simp [pyToLower, h]
    have hall : ∀ q ∈ lowerMap, pyToLower q.2 = q.2 := by decide
    rw [e]
    exact hall p hmem

/-- A list of `pyToLower`-fixed characters is fixed by `pyLower`. -/
theorem pyLower_eq_self : ∀ l : List Char, (∀ c ∈ l, pyToLower c = c) → pyLower l = l := by
  intro l
  induction l with
  | nil => intro _; rfl
  | cons c t ih =>
    intro h
    show pyToLower c :: t.map pyToLower = c :: t
    rw [h c (List.mem_cons_self _ _),
      show t.map pyToLower = t from ih (fun d hd => h d (List.mem_cons_of_mem _ hd))]

theorem mem_pyStrip {c : Char} {l : List Char} (h : c ∈ pyStrip l) : c ∈ l := by
  unfold pyStrip at h
  have h1 := List.mem_reverse.mp h
  have h2 := (List.dropWhile_sublist pyIsSpace).mem h1
  have h3 := List.mem_reverse.mp h2
  exact (List.dropWhile_sublist pyIsSpace).mem h3

/-- The head surviving a `dropWhile` fails the predicate. -/
theorem head_dropWhile_not (p : Char → Bool) :
    ∀ (l : List Char) (c : Char), (l.dropWhile p).head? = some c → p c = false := by
  intro l
  induction l with
  | nil => intro c hc; simp at hc
  | cons a t ih =>
    intro c hc
    by_cases ha : p a
    · rw [List.dropWhile_cons_of_pos ha] at hc
      exact ih c hc
    · rw [List.dropWhile_cons_of_neg ha] at hc
      simp only [List.head?_cons, Option.some.injEq] at hc
      subst hc
      exact Bool.eq_false_iff.mpr ha

/-- `pyStrip l` is a prefix of `l.dropWhile pyIsSpace`: its head is the
same character whenever it is nonempty. -/
theorem pyStrip_head (l : List Char) (c : Char)
    (h : (pyStrip l).head? = some c) : pyIsSpace c = false := by
  have hdec :
      l.dropWhile pyIsSpace =
        pyStrip l ++ ((l.dropWhile pyIsSpace).reverse.takeWhile pyIsSpace).reverse := by
    unfold pyStrip
    rw [← List.reverse_append, List.takeWhile_append_dropWhile, List.reverse_reverse]
  cases hps : pyStrip l with
  | nil => rw [hps] at h; simp at h
  | cons c0 rest =>
    rw [hps] at h
    simp only [List.head?_cons, Option.some.injEq] at h
    subst h
    apply head_dropWhile_not pyIsSpace l c0
    rw [hdec, hps]
    rfl

theorem pyStrip_getLast (l : List Char) (c : Char)
    (h : (pyStrip l).getLast? = some c) : pyIsSpace c = false := by
  unfold pyStrip at h
  rw [List.getLast?_reverse] at h
  exact head_dropWhile_not pyIsSpace _ c h

theorem dropWhile_eq_self_of_head (p : Char → Bool) (l : List Char)
    (h : ∀ c, l.head? = some c → p c = false) : l.dropWhile p = l := by
  cases l with
  | nil => rfl
  | cons a t =>
    rw [List.dropWhile_cons_of_neg]
    rw [h a rfl]
    simp

theorem pyStrip_eq_self (l : List Char)
    (h1 : ∀ c, l.head? = some c → pyIsSpace c = false)
    (h2 : ∀ c, l.getLast? = some c → pyIsSpace c = false) : pyStrip l = l := by
  unfold pyStrip
  rw [dropWhile_eq_self_of_head _ l h1]
  rw [dropWhile_eq_self_of_head _ l.reverse
    (fun c hc => h2 c (by rw [← List.head?_reverse]; exact hc))]
  exact List.reverse_reverse l

theorem head?_take {n : Nat} {l : List Char} {c : Char}
    (h : (l.take n).head? = some c) : l.head? = some c := by
  cases n with
  | zero => simp at h
  | succ m =>
    cases l with
    | nil => simp at h
    | cons a t => simpa using h

/-- The head of a normalized feature name is never whitespace. -/
theorem normalize_head (x : List Char) (c : Char)
    (h : (normalize_feature_name x).head? = some c) : pyIsSpace c = false := by
  simp only [normalize_feature_name] at h
  split at h
  · exact pyStrip_head (pyLower x) c (head?_take h)
  · exact pyStrip_head (pyLower x) c h

/-- Every character of a normalized feature name is `pyToLower`-fixed. -/
theorem normalize_lower_fixed (x : List Char) :
    ∀ c ∈ normalize_feature_name x, pyToLower c = c := by
  intro c hc
  have hmem : c ∈ pyLower x := by
    simp only [normalize_feature_name] at hc
    split at hc
    · exact mem_pyStrip ((List.take_sublist _ _).mem hc)
    · exact mem_pyStrip hc
  obtain ⟨a, _, ha⟩ := List.mem_map.mp hmem
  rw [← ha]
  exact pyToLower_fix a

theorem insertDescBy_perm {α : Type} (key : α → ℚ) (x : α) (l : List α) :
    List.Perm (insertDescBy key x l) (x :: l) := by
  induction l with
  | nil => exact List.Perm.refl _
  | cons y ys ih =>
    simp only [insertDescBy]
    split
    · exact List.Perm.refl _
    · exact (ih.cons y).trans (List.Perm.swap x y ys)

theorem mem_insertDescBy {α : Type} {key : α → ℚ} {x z : α} {l : List α}
    (h : z ∈ insertDescBy key x l) : z = x ∨ z ∈ l :=
  List.mem_cons.mp ((insertDescBy_perm key x l).mem_iff.mp h)

theorem insertDescBy_pairwise {α : Type} (key : α → ℚ) (x : α) (l : List α)
    (h : l.Pairwise (fun a b => key b ≤ key a)) :
    (insertDescBy key x l).Pairwise (fun a b => key b ≤ key a) := by
  induction l with
  | nil => simp [insertDescBy]
  | cons y ys ih =>
    rw [List.pairwise_cons] at h
    obtain ⟨hy, hys⟩ := h
    simp only [insertDescBy]
    split
    · next hcond =>
      rw [List.pairwise_cons]
      refine ⟨?_, List.pairwise_cons.mpr ⟨hy, hys⟩⟩
      intro z hz
      rcases List.mem_cons.mp hz with rfl | hz2
      · exact hcond
      · exact le_trans (hy z hz2) hcond
    · next hcond =>
      rw [List.pairwise_cons]
      refine ⟨?_, ih hys⟩
      intro z hz
      rcases mem_insertDescBy hz with rfl | hz2
      · exact le_of_lt (lt_of_not_le hcond)
      · exact hy z hz2

theorem pySortedDesc_perm {α : Type} (key : α → ℚ) (l : List α) :
    List.Perm (pySortedDesc key l) l := by
  induction l with
  | nil => exact List.Perm.refl _
  | cons x xs ih =>
    exact (insertDescBy_perm key x (pySortedDesc key xs)).trans (ih.cons x)

theorem pySortedDesc_pairwise {α : Type} (key : α → ℚ) (l : List α) :
    (pySortedDesc key l).Pairwise (fun a b => key b ≤ key a) := by
  induction l with
  | nil => simp [pySortedDesc]
  | cons x xs ih => exact insertDescBy_pairwise key x _ ih

/-- Inserting `x` does not disturb the equal-key subsequences: the
filter at `x`'s own key gains `x` at the front (so `x` precedes every
equally-keyed element already present — which, in `pySortedDesc`, are
exactly the later input elements), and every other key's filter is
unchanged. -/
theorem insertDescBy_filter {α : Type} (key : α → ℚ) (x : α) (l : List α) (s : ℚ) :
    (insertDescBy key x l).filter (fun y => decide (key y = s)) =
      if key x = s then x :: l.filter (fun y => decide (key y = s))
      else l.filter (fun y => decide (key y = s)) := by
  induction l with
  | nil => by_cases h : key x = s <;> simp [insertDescBy, h]
  | cons y ys ih =>
    by_cases hcond : key y ≤ key x
    · simp only [insertDescBy, if_pos hcond]
      by_cases hx : key x = s <;> by_cases hy : key y = s <;>
        simp [List.filter_cons, hx, hy]
    · simp only [insertDescBy, if_neg hcond]
      by_cases hx : key x = s <;> by_cases hy : key y = s
      · exfalso
        exact hcond (by rw [hy, hx])
      · simp [List.filter_cons, hx, hy, ih]
      · simp [List.filter_cons, hx, hy, ih]
      · simp [List.filter_cons, hx, hy, ih]

/-- Stability of the modelled `sorted(..., reverse=True)`: for every key
value, the sorted list restricted to that key is the input list
restricted to that key, in the same order. -/
theorem pySortedDesc_filter {α : Type} (key : α → ℚ) (l : List α) (s : ℚ) :
    (pySortedDesc key l).filter (fun y => decide (key y = s)) =
      l.filter (fun y => decide (key y = s)) := by
  induction l with
  | nil => rfl
  | cons x xs ih =>
    show (insertDescBy key x (pySortedDesc key xs)).filter _ = _
    rw [insertDescBy_filter]
    by_cases hx : key x = s <;> simp [List.filter_cons, hx, ih]

/-- Claim C8: `get_top_3_quotes` takes the first `min(n, length)` records
of the stable descending sort by score (permutation + descending +
equal-score order preservation), projects them with absent nested fields
defaulted, and pads nothing; the source instantiates the general `n` at
3. -/
theorem topN_spec (data : TopData) (n : Nat) :
    List.Perm (pySortedDesc scoreKey (data.quotes_with_insights.getD []))
        (data.quotes_with_insights.getD []) ∧
      (pySortedDesc scoreKey (data.quotes_with_insights.getD [])).Pairwise
        (fun a b => scoreKey b ≤ scoreKey a) ∧
      (∀ s : ℚ,
        (pySortedDesc scoreKey (data.quotes_with_insights.getD [])).filter
            (fun q => decide (scoreKey q = s)) =
          (data.quotes_with_insights.getD []).filter (fun q => decide (scoreKey q = s))) ∧
      topNQuotes n data =
        ((pySortedDesc scoreKey (data.quotes_with_insights.getD [])).take n).map
          projEntry ∧
      (topNQuotes n data).length = min n (data.quotes_with_insights.getD []).length ∧
      projEntry ⟨none, none, none, none, none, none⟩ = ⟨none, none, none, none, [], [], []⟩ ∧
      get_top_3_quotes data = ⟨topNQuotes 3 data⟩ := by
  refine ⟨pySortedDesc_perm _ _, pySortedDesc_pairwise _ _,
    fun s => pySortedDesc_filter _ _ s, rfl, ?_, rfl, rfl⟩
  simp [topNQuotes, List.length_take, (pySortedDesc_perm scoreKey _).length_eq]

/-- Claim C10: a record without `alfie_touch_score` is keyed 0 (so in the
sorted order nothing after it has positive score — it sits below every
positively-scored record — yet it can still be projected into the top 3),
and an input with no `quotes_with_insights` key yields an empty top-3
list instead of an error. -/
theorem topN_missing_score :
    (∀ q : QuoteRecord, q.alfie_touch_score = none → scoreKey q = 0) ∧
      (∀ data : TopData, data.quotes_with_insights = none →
        get_top_3_quotes data = ⟨[]⟩) ∧
      (∀ (l l₁ l₂ : List QuoteRecord) (q r : QuoteRecord),
        pySortedDesc scoreKey l = l₁ ++ q :: l₂ → q.alfie_touch_score = none →
        r ∈ l₂ → scoreKey r ≤ 0) ∧
      (get_top_3_quotes ⟨some [⟨some "n", none, none, none, none, none⟩]⟩).top_3_quotes =
        [projEntry ⟨some "n", none, none, none, none, none⟩] := by
  refine ⟨?_, ?_, ?_, rfl⟩
  · intro q hq
    simp [scoreKey, hq]
  · intro data hd
    simp [get_top_3_quotes, hd, pySortedDesc]
  · intro l l₁ l₂ q r heq hq hr
    have hp := pySortedDesc_pairwise scoreKey l
    rw [heq] at hp
    have h2 := (List.pairwise_append.mp hp).2.1
    have h3 := (List.pairwise_cons.mp h2).1 r hr
    rw [show scoreKey q = 0 by simp [scoreKey, hq]] at h3
    exact h3

/-- Witness for C10: a scoreless record has key 0, and a missing quote
list yields the empty output. -/
theorem topN_missing_score_witness :
    scoreKey ⟨none, none, none, none, none, none⟩ = 0 ∧
      get_top_3_quotes ⟨none⟩ = ⟨[]⟩ :=
  ⟨topN_missing_score.1 ⟨none, none, none, none, none, none⟩ rfl,
    topN_missing_score.2.1 ⟨none⟩ rfl⟩

/-- `min(candidates, key=lambda q: q.price)` as a left fold keeps the
first element whose price is minimal: the result splits the list with
strictly more expensive quotes before it and no cheaper quote anywhere. -/
theorem foldl_min_first (qs : List Quote) (b : Quote) :
    ∃ l₁ l₂,
      b :: qs =
          l₁ ++ (qs.foldl (fun best x => if x.price < best.price then x else best) b) :: l₂ ∧
        (∀ x ∈ b :: qs,
          (qs.foldl (fun best x => if x.price < best.price then x else best) b).price ≤
            x.price) ∧
        (∀ x ∈ l₁,
          (qs.foldl (fun best x => if x.price < best.price then x else best) b).price <
            x.price) := by
  induction qs generalizing b with
  | nil =>
    refine ⟨[], [], rfl, ?_, by simp⟩
    intro x hx
    simp only [List.mem_singleton] at hx
    subst hx
    exact le_refl _
  | cons x xs ih =>
    simp only [List.foldl_cons]
    by_cases hx : x.price < b.price
    · rw [if_pos hx]
      obtain ⟨l₁, l₂, heq, hmin, hstrict⟩ := ih x
      have hrx : (xs.foldl (fun best x => if x.price < best.price then x else best) x).price ≤
          x.price := hmin x (List.mem_cons_self _ _)
      refine ⟨b :: l₁, l₂, by rw [List.cons_append, ← heq], ?_, ?_⟩
      · intro y hy
        rcases List.mem_cons.mp hy with rfl | hy2
        · exact le_trans hrx (le_of_lt hx)
        · exact hmin y hy2
      · intro y hy
        rcases List.mem_cons.mp hy with rfl | hy2
        · exact lt_of_le_of_lt hrx hx
        · exact hstrict y hy2
    · rw [if_neg hx]
      obtain ⟨l₁, l₂, heq, hmin, hstrict⟩ := ih b
      have hbx : b.price ≤ x.price := le_of_not_lt hx
      have hrb : (xs.foldl (fun best x => if x.price < best.price then x else best) b).price ≤
          b.price := hmin b (List.mem_cons_self _ _)
      cases l₁ with
      | nil =>
        rw [List.nil_append] at heq
        injection heq with hb hxs
        refine ⟨[], x :: l₂, ?_, ?_, by simp⟩
        · rw [List.nil_append, ← hb, hxs]
        · intro y hy
          rcases List.mem_cons.mp hy with rfl | hy2
          · exact hrb
          · rcases List.mem_cons.mp hy2 with rfl | hy3
            · exact le_trans hrb hbx
            · exact hmin y (List.mem_cons_of_mem _ hy3)
      | cons c l₁' =>
        simp only [List.cons_append, List.cons.injEq] at heq
        obtain ⟨hbc, hxs⟩ := heq
        subst hbc
        have hrltb : (xs.foldl (fun best x => if x.price < best.price then x else best) b).price <
            b.price := hstrict b (List.mem_cons_self _ _)
        refine ⟨b :: x :: l₁', l₂, ?_, ?_, ?_⟩
        · rw [List.cons_append, List.cons_append, ← hxs]
        · intro y hy
          rcases List.mem_cons.mp hy with rfl | hy2
          · exact hrb
          · rcases List.mem_cons.mp hy2 with rfl | hy3
            · exact le_trans hrb hbx
            · exact hmin y (List.mem_cons_of_mem _ hy3)
        · intro y hy
          rcases List.mem_cons.mp hy with rfl | hy2
          · exact hrltb
          · rcases List.mem_cons.mp hy2 with rfl | hy3
            · exact lt_of_lt_of_le hrltb hbx
            · exact hstrict y (List.mem_cons_of_mem _ hy3)

/-- Claim C4: `find_best_match` returns `none` exactly when no quote
passes `matches_requirements`, and otherwise the first quote, in input
order, among the passing ones whose price is minimal (stable tie-break:
every passing quote before it is strictly more expensive, none anywhere
is cheaper). -/
theorem find_best_match_spec (quotes : List Quote) (budget : Option ℚ)
    (required_features : List String) :
    (find_best_match quotes budget required_features = none ↔
        quotes.filter (fun q => matches_requirements q budget required_features) = []) ∧
      (∀ q, find_best_match quotes budget required_features = some q →
        ∃ l₁ l₂,
          quotes.filter (fun q => matches_requirements q budget required_features) =
              l₁ ++ q :: l₂ ∧
            (∀ r ∈ quotes.filter (fun q => matches_requirements q budget required_features),
              q.price ≤ r.price) ∧
            (∀ r ∈ l₁, q.price < r.price)) := by
  cases hc : quotes.filter (fun q => matches_requirements q budget required_features) with
  | nil =>
    refine ⟨by simp [find_best_match, hc], ?_⟩
    intro q h
    simp only [find_best_match, hc] at h
    exact Option.noConfusion h
  | cons c cs =>
    refine ⟨by simp [find_best_match, hc], ?_⟩
    intro q h
    simp only [find_best_match, hc, Option.some.injEq] at h
    subst h
    obtain ⟨l₁, l₂, heq, hmin, hstrict⟩ := foldl_min_first cs c
    exact ⟨l₁, l₂, heq, hmin, hstrict⟩

/-- Witness for C4 at the spec's tie-break example: among prices
`[100, 80, 80]` (all passing) the first quote with price 80 is
returned. -/
theorem find_best_match_spec_witness :
    ∃ l₁ l₂,
      (([⟨"X", 100, []⟩, ⟨"Y", 80, []⟩, ⟨"Z", 80, []⟩] : List Quote).filter
          (fun q => matches_requirements q none [])) =
          l₁ ++ (⟨"Y", 80, []⟩ : Quote) :: l₂ ∧
        (∀ r ∈ ([⟨"X", 100, []⟩, ⟨"Y", 80, []⟩, ⟨"Z", 80, []⟩] : List Quote).filter
            (fun q => matches_requirements q none []),
          (⟨"Y", 80, []⟩ : Quote).price ≤ r.price) ∧
        (∀ r ∈ l₁, (⟨"Y", 80, []⟩ : Quote).price < r.price) :=
  (find_best_match_spec [⟨"X", 100, []⟩, ⟨"Y", 80, []⟩, ⟨"Z", 80, []⟩] none []).2
    ⟨"Y", 80, []⟩ (by decide)

/-- Claim C5: `matches_requirements` returns `false` exactly when the
budget is present and exceeded strictly (equality passes), or the
required-feature list is nonempty and some required feature is missing
from the quote (a subset test: extra quote features never fail). -/
theorem matches_requirements_spec (q : Quote) (budget : Option ℚ)
    (required_features : List String) :
    matches_requirements q budget required_features = false ↔
      ((∃ b, budget = some b ∧ b < q.price) ∨
        (required_features ≠ [] ∧ ∃ f ∈ required_features, f ∉ q.features)) := by
  unfold matches_requirements
  cases budget with
  | none => simp
  | some b =>
    simp only [Option.any_some, decide_eq_true_eq, List.elem_eq_mem, Bool.and_eq_true,
      Bool.not_eq_eq_eq_not, Bool.not_true, List.isEmpty_eq_false, ne_eq,
      List.filter_eq_nil_iff, decide_eq_false_iff_not, Decidable.not_not, not_forall,
      Classical.not_imp, Bool.if_true_right, Bool.decide_and, decide_not, Bool.not_and,
      Bool.not_not, Bool.or_false, Bool.if_false_left, Bool.and_eq_false_imp, not_lt,
      Bool.or_eq_false_iff, Bool.not_false, Option.some.injEq, exists_eq_left']
    constructor
    · intro h
      rcases lt_or_le b q.price with hlt | hle
      · exact Or.inl hlt
      · obtain ⟨h1, x, hx, hp⟩ := h hle
        exact Or.inr ⟨h1, x, hx, hp⟩
    · rintro (hlt | hA) hle
      · exact absurd hlt (not_lt.mpr hle)
      · obtain ⟨h1, x, hx, hp⟩ := hA
        exact ⟨h1, x, hx, hp⟩
